import Mathlib

/-!
Shallow embedding of the leisql query engine core (an in-memory SQL engine
written in Rust) and proofs about it.  Each definition is translated from a
function of the source tree:

* `src/core/datum.rs`     — `Datum`, `Datum.cast`, `PartialEq`/`Hash` impls
* `src/core/types.rs`     — `Type` (here `Ty`, since `Type` is a Lean universe)
* `src/core/tuple.rs`     — `Tuple`
* `src/core/error.rs`     — `SQLError`, `ErrorKind`
* `src/sql/expression/*`  — scalar/aggregate function registries, type checking
* `src/sql/runtime/*`     — executors and the executor builder closures
* `src/sql/planner/*`     — the fragments of the binder the claims touch
* `src/catalog/mod.rs`, `src/storage/*` — catalog and storage manager

Rust's `f64` is modelled by `F64` below: a sum of the distinguished IEEE-754
values (NaN, the infinities, negative zero) and exact finite values carried as
rationals.  Distinct `F64` values denote distinct bit patterns, so the
source's `f64::to_bits` comparison is structural equality here.  Floating
point rounding is not modelled; every float arising in the concrete inputs of
this file (small integers and their sums) is exactly representable in binary64,
where IEEE addition is exact.  Rust's `i64`/`u64` are modelled as `Int`/`Nat`;
no concrete input in this file approaches the overflow range.
-/

namespace LeiSQL

/-- Model of Rust `f64`.  `num q` is the finite double of exact value `q`
(with `num 0` the positive zero); `negZero`, `nan`, `inf`, `negInf` are the
distinguished values.  Structural equality of `F64` corresponds to equality
of `to_bits` bit patterns (taking `nan` for the single NaN pattern the engine
produces). -/
inductive F64 where
  | num : ℚ → F64
  | negZero : F64
  | nan : F64
  | inf : F64
  | negInf : F64
deriving DecidableEq, Repr

namespace F64

/-- IEEE-754 addition on the modelled values.  Exact on the finite inputs used
in this development (no rounding is modelled). -/
def add : F64 → F64 → F64
  | nan, _ => nan
  | _, nan => nan
  | inf, negInf => nan
  | negInf, inf => nan
  | inf, _ => inf
  | _, inf => inf
  | negInf, _ => negInf
  | _, negInf => negInf
  | negZero, negZero => negZero
  | negZero, num b => num b
  | num a, negZero => num a
  | num a, num b => num (a + b)

/-- `v != 0.0` on f64: both zeros compare equal to `0.0`; NaN compares
unequal to everything, so `NaN != 0.0` is true. -/
def neZero : F64 → Bool
  | num a => a ≠ 0
  | negZero => false
  | nan => true
  | inf => true
  | negInf => true

/-- Rust `as i64` on f64: truncate toward zero, saturating at the i64 range;
NaN becomes 0. -/
def toI64 : F64 → ℤ
  | num a =>
      let t : ℤ := if a ≥ 0 then a.floor else -((-a).floor)
      max (-(2 ^ 63)) (min (2 ^ 63 - 1) t)
  | negZero => 0
  | nan => 0
  | inf => 2 ^ 63 - 1
  | negInf => -(2 ^ 63)

/-- Rendering used by the `Display` impl (`{}` on f64).  For the integral
finite values appearing in this development this matches Rust's shortest
formatting; non-integral rationals are rendered as fractions, an admitted
approximation (no claim in this file depends on it). -/
def render : F64 → String
  | num q => if q.den = 1 then toString q.num else toString q
  | negZero => "-0"
  | nan => "NaN"
  | inf => "inf"
  | negInf => "-inf"

end F64

/-- `Type` from `src/core/types.rs`.  Named `Ty` because `Type` is a Lean
universe keyword. -/
inductive Ty where
  | Int
  | Float
  | String
  | Boolean
  | Null
  | Any
  | Never
deriving DecidableEq, Repr

/-- Alias for the Lean string type, used in signatures where the `Datum.String`
constructor shadows the name `String`. -/
abbrev Str : Type := String

/-- Rust `str::to_lowercase`, character by character (the Unicode multi-char
special cases do not arise for the inputs of interest). -/
def str_to_lowercase (s : String) : String :=
  ⟨s.data.map Char.toLower⟩

/-- `Datum` from `src/core/datum.rs`. -/
inductive Datum where
  | Int : ℤ → Datum
  | Float : F64 → Datum
  | String : String → Datum
  | Boolean : Bool → Datum
  | Null : Datum
deriving DecidableEq, Repr

/-- Lexical parse of a string as an i64, as Rust `str::parse::<i64>`:
an optional sign followed by one or more ASCII digits, nothing else. -/
def parseI64 (s : String) : Option ℤ :=
  let core (digits : List Char) : Option ℕ :=
    if digits = [] ∨ ¬ digits.all (·.isDigit) then none
    else some (digits.foldl (fun acc c => acc * 10 + (c.toNat - 48)) 0)
  let inRange (z : ℤ) : Option ℤ :=
    if -(2 ^ 63) ≤ z ∧ z ≤ 2 ^ 63 - 1 then some z else none
  match s.toList with
  | '-' :: rest => (core rest).bind fun n => inRange (-(n : ℤ))
  | '+' :: rest => (core rest).bind fun n => inRange (n : ℤ)
  | l => (core l).bind fun n => inRange (n : ℤ)

/-- Lexical parse of a string as an f64, as Rust `str::parse::<f64>`.
Modelled for the plain decimal forms (optional sign, digits, optional
fractional digits); scientific notation and the named special values are
conservatively rejected.  No claim in this file depends on the rejected
forms. -/
def parseF64 (s : String) : Option F64 :=
  let digitsVal (digits : List Char) : ℕ :=
    digits.foldl (fun acc c => acc * 10 + (c.toNat - 48)) 0
  let core (l : List Char) : Option ℚ :=
    match l.splitOn '.' with
    | [intPart] =>
        if intPart = [] ∨ ¬ intPart.all (·.isDigit) then none
        else some ((digitsVal intPart : ℚ))
    | [intPart, fracPart] =>
        if (intPart = [] ∧ fracPart = []) ∨ ¬ intPart.all (·.isDigit)
            ∨ ¬ fracPart.all (·.isDigit) then none
        else some ((digitsVal intPart : ℚ)
            + (digitsVal fracPart : ℚ) / ((10 : ℚ) ^ fracPart.length))
    | _ => none
  match s.toList with
  | '-' :: rest => (core rest).map fun q => if q = 0 then .negZero else .num (-q)
  | '+' :: rest => (core rest).map F64.num
  | l => (core l).map F64.num

/-- What the `Hash` impl for `Datum` feeds to the hasher, as an injective
token: `Int` feeds the i64, `Float` feeds `to_bits`, `Null` feeds the integer
literal `0` (an i32).  Two datums with the same feed receive the same hash
from any hasher. -/
inductive HashFeed where
  | i64 : ℤ → HashFeed
  | bits : F64 → HashFeed
  | str : String → HashFeed
  | bool : Bool → HashFeed
  | i32 : ℤ → HashFeed
deriving DecidableEq, Repr

namespace Datum

/-- `Datum::typ`. -/
def typ : Datum → Ty
  | Int _ => .Int
  | Float _ => .Float
  | String _ => .String
  | Boolean _ => .Boolean
  | Null => .Null

/-- `Datum::is_null` (from `enum_as_inner`). -/
def isNull : Datum → Bool
  | Null => true
  | _ => false

/-- The `Display` impl for `Datum` (used by the Boolean-to-String cast). -/
def render : Datum → Str
  | Int v => toString v
  | Float v => v.render
  | String v => v
  | Boolean v => if v then "TRUE" else "FALSE"
  | Null => "NULL"

/-- `Datum::cast` from `src/core/datum.rs`.  The catch-all `unreachable!()`
arms of the source (casts to `Null`/`Any`/`Never` targets on non-null input)
are modelled as `Null`; no claim exercises them. -/
def cast (d : Datum) (destTyp : Ty) : Datum :=
  match d, destTyp with
  | Int v, .Int => Int v
  | Int v, .String => String (toString v)
  | Int v, .Boolean => Boolean (v ≠ 0)
  | Int v, .Float => Float (.num v)

  | String v, .Int => (parseI64 v).elim Null Int
  | String v, .Float => (parseF64 v).elim Null Float
  | String v, .String => String v
  | String v, .Boolean =>
      let w := str_to_lowercase v
      if w = "true" ∨ w = "t" then Boolean true
      else if w = "false" ∨ w = "f" then Boolean false
      else Null

  | Null, _ => Null

  | Boolean v, .Int => Int (if v then 1 else 0)
  | Boolean _, .Float => Null
  | Boolean v, .String => String (render (Boolean v))
  | Boolean v, .Boolean => Boolean v

  | Float v, .Int => Int v.toI64
  | Float v, .Float => Float v
  | Float v, .String => String v.render
  | Float v, .Boolean => Boolean v.neZero

  | _, _ => Null

/-- The `PartialEq` impl for `Datum`: floats compare by `to_bits` (structural
equality of `F64`), `Null == Null`, cross-variant comparisons are false. -/
def beqD : Datum → Datum → Bool
  | Int l, Int r => l = r
  | Float l, Float r => l = r
  | String l, String r => l = r
  | Boolean l, Boolean r => l = r
  | Null, Null => true
  | _, _ => false

/-- The `Hash` impl for `Datum` from `src/core/datum.rs`. -/
def hashFeed : Datum → HashFeed
  | Int v => .i64 v
  | Float v => .bits v
  | String v => .str v
  | Boolean v => .bool v
  | Null => .i32 0

end Datum

/-- `Tuple` from `src/core/tuple.rs`. -/
structure Tuple where
  values : List Datum
deriving DecidableEq, Repr

namespace Tuple

/-- `Tuple::append`. -/
def append (t : Tuple) (d : Datum) : Tuple :=
  ⟨t.values ++ [d]⟩

/-- `Tuple::get`. -/
def get (t : Tuple) (index : ℕ) : Option Datum :=
  t.values[index]?

/-- `Tuple::project`.  The source indexes `self.values[*i]`, panicking when
out of range; out-of-range indices are modelled as `Null` and are never
exercised by claims. -/
def project (t : Tuple) (indices : List ℕ) : Tuple :=
  ⟨indices.map fun i => (t.values[i]?).getD .Null⟩

end Tuple

namespace F64

/-- IEEE negation: flips zeros into each other, swaps the infinities. -/
def neg : F64 → F64
  | num q => if q = 0 then negZero else num (-q)
  | negZero => num 0
  | nan => nan
  | inf => negInf
  | negInf => inf

/-- IEEE subtraction `a - b`, which equals `a + (-b)`. -/
def sub (a b : F64) : F64 := a.add b.neg

/-- `==` on f64 (numeric, not bitwise): NaN is unequal to everything and the
two zeros are equal. -/
def eqB : F64 → F64 → Bool
  | nan, _ => false
  | _, nan => false
  | inf, inf => true
  | negInf, negInf => true
  | inf, _ => false
  | _, inf => false
  | negInf, _ => false
  | _, negInf => false
  | num a, num b => a = b
  | num a, negZero => a = 0
  | negZero, num b => b = 0
  | negZero, negZero => true

/-- `<` on f64: false whenever NaN is involved; the zeros are numerically
equal. -/
def ltB : F64 → F64 → Bool
  | nan, _ => false
  | _, nan => false
  | inf, _ => false
  | _, inf => true
  | negInf, negInf => false
  | negInf, _ => true
  | _, negInf => false
  | num a, num b => a < b
  | num a, negZero => a < 0
  | negZero, num b => 0 < b
  | negZero, negZero => false

/-- `<=` on f64. -/
def leB (a b : F64) : Bool := a.ltB b || a.eqB b

end F64

/-- `ErrorKind` from `src/core/error.rs`. -/
inductive ErrorKind where
  | ParseError
  | PlannerError
  | CatalogError
  | TypeError
  | RuntimeError
  | UnknownError
deriving DecidableEq, Repr

/-- `SQLError` from `src/core/error.rs`. -/
structure SQLError where
  kind : ErrorKind
  message : String
deriving DecidableEq, Repr

/-- `ScalarFunction` from `src/sql/expression/function.rs`: one concrete
overload of a named scalar function. -/
structure ScalarFunction where
  name : String
  arg_types : List Ty
  ret_type : Ty
  eval : List Datum → Datum

/-- The null-passthrough wrapper applied by
`ScalarFunctionRegistry::register_null_passthrough`: if any argument is Null,
return Null without invoking the body. -/
def null_passthrough (f : List Datum → Datum) : List Datum → Datum :=
  fun args => if args.any (·.isNull) then .Null else f args

/-!
The built-in scalar overloads from `src/sql/expression/function.rs`.  Each
body pattern-matches the argument shapes the source `unwrap()`s into; the
non-matching shapes (where the source would panic on a wrong-variant unwrap)
are modelled as `Null` and are unreachable through the type checker.  The
integer `-` overload adds instead of subtracting, exactly as the source does.
-/

/-- `+` on `(Int, Int) → Int`. -/
def addIntInt : ScalarFunction :=
  ⟨"+", [.Int, .Int], .Int, null_passthrough fun
    | [.Int l, .Int r] => .Int (l + r)
    | _ => .Null⟩

/-- `+` on `(Float, Float) → Float`. -/
def addFloatFloat : ScalarFunction :=
  ⟨"+", [.Float, .Float], .Float, null_passthrough fun
    | [.Float l, .Float r] => .Float (l.add r)
    | _ => .Null⟩

/-- `-` on `(Int, Int) → Int`.  The source body computes `left + right`. -/
def subIntInt : ScalarFunction :=
  ⟨"-", [.Int, .Int], .Int, null_passthrough fun
    | [.Int l, .Int r] => .Int (l + r)
    | _ => .Null⟩

/-- `-` on `(Float, Float) → Float`. -/
def subFloatFloat : ScalarFunction :=
  ⟨"-", [.Float, .Float], .Float, null_passthrough fun
    | [.Float l, .Float r] => .Float (l.sub r)
    | _ => .Null⟩

/-- Builds one comparison overload over `(Int, Int)`. -/
def cmpIntFn (name : String) (op : ℤ → ℤ → Bool) : ScalarFunction :=
  ⟨name, [.Int, .Int], .Boolean, null_passthrough fun
    | [.Int l, .Int r] => .Boolean (op l r)
    | _ => .Null⟩

/-- Builds one comparison overload over `(Float, Float)`. -/
def cmpFloatFn (name : String) (op : F64 → F64 → Bool) : ScalarFunction :=
  ⟨name, [.Float, .Float], .Boolean, null_passthrough fun
    | [.Float l, .Float r] => .Boolean (op l r)
    | _ => .Null⟩

/-- Builds one comparison overload over `(String, String)`. -/
def cmpStringFn (name : String) (op : Str → Str → Bool) : ScalarFunction :=
  ⟨name, [.String, .String], .Boolean, null_passthrough fun
    | [.String l, .String r] => .Boolean (op l r)
    | _ => .Null⟩

/-- Builds one comparison overload over `(Boolean, Boolean)`. -/
def cmpBoolFn (name : String) (op : Bool → Bool → Bool) : ScalarFunction :=
  ⟨name, [.Boolean, .Boolean], .Boolean, null_passthrough fun
    | [.Boolean l, .Boolean r] => .Boolean (op l r)
    | _ => .Null⟩

/-- Builds one cast overload `name(Any) → target` that invokes `Datum::cast`. -/
def castFn (name : String) (target : Ty) : ScalarFunction :=
  ⟨name, [.Any], target, null_passthrough fun
    | [v] => v.cast target
    | _ => .Null⟩

/-- `ScalarFunctionRegistry::search_candidates` on the built-in registry:
the overloads registered under each name, in registration order
(arithmetic, then comparisons, then casts). -/
def search_candidates : String → List ScalarFunction
  | "+" => [addIntInt, addFloatFloat]
  | "-" => [subIntInt, subFloatFloat]
  | "=" => [cmpIntFn "=" (· = ·), cmpFloatFn "=" F64.eqB,
            cmpStringFn "=" (· = ·), cmpBoolFn "=" (· = ·)]
  | "<>" => [cmpIntFn "<>" (· ≠ ·), cmpFloatFn "<>" (fun a b => !a.eqB b),
             cmpStringFn "<>" (· ≠ ·), cmpBoolFn "<>" (· ≠ ·)]
  | "<" => [cmpIntFn "<" (· < ·), cmpFloatFn "<" F64.ltB,
            cmpStringFn "<" (· < ·)]
  | "<=" => [cmpIntFn "<=" (· ≤ ·), cmpFloatFn "<=" F64.leB,
             cmpStringFn "<=" (· ≤ ·)]
  | ">" => [cmpIntFn ">" (· > ·), cmpFloatFn ">" (fun a b => F64.ltB b a),
            cmpStringFn ">" (· > ·)]
  | ">=" => [cmpIntFn ">=" (· ≥ ·), cmpFloatFn ">=" (fun a b => F64.leB b a),
             cmpStringFn ">=" (· ≥ ·)]
  | "to_int" => [castFn "to_int" .Int]
  | "to_float" => [castFn "to_float" .Float]
  | "to_string" => [castFn "to_string" .String]
  | "to_boolean" => [castFn "to_boolean" .Boolean]
  | _ => []

/-- `Column` from `src/sql/planner/mod.rs` (a positional reference into the
current scope). -/
structure Column where
  index : ℕ
deriving DecidableEq, Repr

/-- `ScalarExpr` from `src/sql/planner/mod.rs`: the unresolved expression the
binder produces. -/
inductive ScalarExpr where
  | Column : Column → ScalarExpr
  | Literal : Datum → ScalarExpr
  | FunctionCall : String → List ScalarExpr → ScalarExpr

/-- `Expression` from `src/sql/expression/mod.rs`: the typed expression the
type checker produces. -/
inductive Expression where
  | Column : ℕ → Ty → Expression
  | Literal : Datum → Ty → Expression
  | Function : ScalarFunction → List Expression → Expression

/-- `Expression::typ`. -/
def Expression.typ : Expression → Ty
  | .Column _ ty => ty
  | .Literal _ ty => ty
  | .Function func _ => func.ret_type

mutual

/-- `Expression::eval` from `src/sql/expression/mod.rs`. -/
def Expression.eval : Expression → Tuple → Except SQLError Datum
  | .Column index _, t =>
      match t.get index with
      | some d => .ok d
      | none => .error ⟨.RuntimeError, "cannot find column at index: " ++ toString index⟩
  | .Literal value _, _ => .ok value
  | .Function func args, t =>
      match Expression.evalArgs args t with
      | .error e => .error e
      | .ok ds => .ok (func.eval ds)

/-- Left-to-right evaluation of an argument list, stopping at the first
error (the `collect::<Result<Vec<_>, _>>()` in the source). -/
def Expression.evalArgs : List Expression → Tuple → Except SQLError (List Datum)
  | [], _ => .ok []
  | e :: rest, t =>
      match Expression.eval e t with
      | .error err => .error err
      | .ok d =>
          match Expression.evalArgs rest t with
          | .error err => .error err
          | .ok ds => .ok (d :: ds)

end

/-- The `AUTO_CAST` table from `src/sql/expression/type_check.rs`, verbatim. -/
def AUTO_CAST : List (Ty × Ty) :=
  [(.Int, .Float),
   (.Int, .String),
   (.Int, .Boolean),

   (.Float, .Int),
   (.Float, .String),

   (.Boolean, .Int),
   (.Boolean, .String),

   (.Null, .Int),
   (.Null, .Float),
   (.Null, .Boolean),
   (.Null, .String),

   (.Int, .Any),
   (.Float, .Any),
   (.Boolean, .Any),
   (.String, .Any)]

/-- `can_auto_cast_to` from `src/sql/expression/type_check.rs`. -/
def can_auto_cast_to (src dst : Ty) : Bool :=
  AUTO_CAST.contains (src, dst)

/-- `wrap_cast` from `src/sql/expression/type_check.rs`.  The source indexes
`search_candidates(cast_func_name)[0]`; the empty-list arm (unreachable for
the built-in registry) and the `unreachable!()` target types are modelled by
returning the expression unchanged. -/
def wrap_cast (expr : Expression) (target_type : Ty) : Expression :=
  if expr.typ = target_type then expr
  else
    let cast_func_name :=
      match target_type with
      | .Int => "to_int"
      | .Float => "to_float"
      | .String => "to_string"
      | .Boolean => "to_boolean"
      | _ => ""
    match search_candidates cast_func_name with
    | func :: _ => .Function func [expr]
    | [] => expr

/-- The per-argument matching loop of `type_check_function`: `Any` parameters
accept anything unchanged; otherwise the argument type must equal the
parameter type or be auto-castable, and the argument is wrapped with
`wrap_cast`.  Returns the wrapped argument list when the candidate matches. -/
def match_candidate : List Ty → List Expression → Option (List Expression)
  | [], [] => some []
  | p :: ps, a :: rest =>
      if p = Ty.Any then
        (match_candidate ps rest).map (a :: ·)
      else if a.typ = p ∨ can_auto_cast_to a.typ p then
        (match_candidate ps rest).map (wrap_cast a p :: ·)
      else
        none
  | _, _ => none

/-- `type_check_function` from `src/sql/expression/type_check.rs`: first-match
scan over the registry's candidates for `name`. -/
def type_check_function (name : String) (args : List Expression) :
    Except SQLError Expression :=
  go (search_candidates name)
where
  go : List ScalarFunction → Except SQLError Expression
    | [] => .error ⟨.CatalogError,
        "cannot find overload of function with given types: " ++ name⟩
    | candidate :: rest =>
        if candidate.arg_types.length ≠ args.length then go rest
        else
          match match_candidate candidate.arg_types args with
          | some arguments => .ok (.Function candidate arguments)
          | none => go rest

/-- `AggregateState` from `src/sql/expression/aggregate.rs`. -/
inductive AggregateState where
  | Count : ℕ → AggregateState
  | Sum : Datum → AggregateState
  | Avg : Datum → ℕ → AggregateState
  | MinMax : Datum → AggregateState
deriving DecidableEq, Repr

/-- `AggregateState::finalize`.  `Avg` returns the stored value whenever the
count is non-zero — the stored running sum, with no division. -/
def AggregateState.finalize : AggregateState → Datum
  | .Count count => .Int count
  | .Sum value => value
  | .Avg value count => if count = 0 then .Null else value
  | .MinMax value => value

/-- `AggregateFunction` from `src/sql/expression/aggregate.rs`. -/
structure AggregateFunction where
  name : String
  arg_types : List Ty
  ret_type : Ty
  default_state : AggregateState
  accumulate : List Datum → AggregateState → AggregateState

/-- The null-skip wrapper applied by
`AggregateFunctionRegistry::register_skip_null`: if any argument is Null the
state is returned unchanged. -/
def skip_null (f : List Datum → AggregateState → AggregateState) :
    List Datum → AggregateState → AggregateState :=
  fun args state => if args.any (·.isNull) then state else f args state

/-!
The built-in aggregates from `src/sql/expression/aggregate.rs`.  As with the
scalar bodies, the argument/state shapes on which the source would panic via a
wrong-variant `unwrap()` are modelled by returning the state unchanged; they
are unreachable for states produced by the executor.
-/

/-- `count()` (zero arguments). -/
def aggCountStar : AggregateFunction :=
  ⟨"count", [], .Int, .Count 0, skip_null fun _ state =>
    match state with
    | .Count c => .Count (c + 1)
    | _ => state⟩

/-- `count(Any)`. -/
def aggCountAny : AggregateFunction :=
  ⟨"count", [.Any], .Int, .Count 0, skip_null fun _ state =>
    match state with
    | .Count c => .Count (c + 1)
    | _ => state⟩

/-- `sum(Int) → Int`: state starts Null, becomes `Int 0` on first non-null,
then accumulates. -/
def aggSumInt : AggregateFunction :=
  ⟨"sum", [.Int], .Int, .Sum .Null, skip_null fun args state =>
    match state, args with
    | .Sum s, [.Int arg] =>
        let s := if s = .Null then Datum.Int 0 else s
        match s with
        | .Int acc => .Sum (.Int (acc + arg))
        | _ => state
    | _, _ => state⟩

/-- `sum(Float) → Float`. -/
def aggSumFloat : AggregateFunction :=
  ⟨"sum", [.Float], .Float, .Sum .Null, skip_null fun args state =>
    match state, args with
    | .Sum s, [.Float arg] =>
        let s := if s = .Null then Datum.Float (.num 0) else s
        match s with
        | .Float acc => .Sum (.Float (acc.add arg))
        | _ => state
    | _, _ => state⟩

/-- `avg(Int) → Float`: the state accumulates `(running f64 sum, count)`,
converting each i64 argument with `as f64`. -/
def aggAvgInt : AggregateFunction :=
  ⟨"avg", [.Int], .Float, .Avg .Null 0, skip_null fun args state =>
    match state, args with
    | .Avg v c, [.Int arg] =>
        let v := if v = .Null then Datum.Float (.num 0) else v
        match v with
        | .Float acc => .Avg (.Float (acc.add (.num arg))) (c + 1)
        | _ => state
    | _, _ => state⟩

/-- `avg(Float) → Float`. -/
def aggAvgFloat : AggregateFunction :=
  ⟨"avg", [.Float], .Float, .Avg .Null 0, skip_null fun args state =>
    match state, args with
    | .Avg v c, [.Float arg] =>
        let v := if v = .Null then Datum.Float (.num 0) else v
        match v with
        | .Float acc => .Avg (.Float (acc.add arg)) (c + 1)
        | _ => state
    | _, _ => state⟩

/-- Builds the `min`/`max` overload over `Int` for the comparison `op`
(`<` for min, `>` for max). -/
def aggExtremumInt (name : String) (op : ℤ → ℤ → Bool) : AggregateFunction :=
  ⟨name, [.Int], .Int, .MinMax .Null, skip_null fun args state =>
    match state, args with
    | .MinMax .Null, [.Int arg] => .MinMax (.Int arg)
    | .MinMax (.Int s), [.Int arg] =>
        if op arg s then .MinMax (.Int arg) else .MinMax (.Int s)
    | _, _ => state⟩

/-- Builds the `min`/`max` overload over `Float`.  The source compares with
`<`/`>` on `&f64` references, which is IEEE numeric comparison. -/
def aggExtremumFloat (name : String) (op : F64 → F64 → Bool) : AggregateFunction :=
  ⟨name, [.Float], .Float, .MinMax .Null, skip_null fun args state =>
    match state, args with
    | .MinMax .Null, [.Float arg] => .MinMax (.Float arg)
    | .MinMax (.Float s), [.Float arg] =>
        if op arg s then .MinMax (.Float arg) else .MinMax (.Float s)
    | _, _ => state⟩

/-- Builds the `min`/`max` overload over `String`. -/
def aggExtremumString (name : String) (op : Str → Str → Bool) : AggregateFunction :=
  ⟨name, [.String], .String, .MinMax .Null, skip_null fun args state =>
    match state, args with
    | .MinMax .Null, [.String arg] => .MinMax (.String arg)
    | .MinMax (.String s), [.String arg] =>
        if op arg s then .MinMax (.String arg) else .MinMax (.String s)
    | _, _ => state⟩

/-- `AggregateFunctionRegistry::search_candidates` on the built-in registry,
in registration order. -/
def search_aggregate_candidates : String → List AggregateFunction
  | "count" => [aggCountStar, aggCountAny]
  | "sum" => [aggSumInt, aggSumFloat]
  | "avg" => [aggAvgInt, aggAvgFloat]
  | "min" => [aggExtremumInt "min" (· < ·), aggExtremumFloat "min" F64.ltB,
              aggExtremumString "min" (· < ·)]
  | "max" => [aggExtremumInt "max" (· > ·), aggExtremumFloat "max" (fun a b => F64.ltB b a),
              aggExtremumString "max" (· > ·)]
  | _ => []

/-- The per-argument matching loop of `type_check_aggregate_function`: like
the scalar one but without casts — the argument type must equal the parameter
type exactly unless the parameter is `Any`. -/
def match_aggregate_candidate : List Ty → List Expression → Bool
  | [], [] => true
  | p :: ps, a :: rest =>
      if p = Ty.Any then match_aggregate_candidate ps rest
      else if a.typ = p then match_aggregate_candidate ps rest
      else false
  | _, _ => false

/-- `type_check_aggregate_function` from `src/sql/expression/type_check.rs`. -/
def type_check_aggregate_function (name : String) (args : List Expression) :
    Except SQLError (AggregateFunction × List Expression) :=
  go (search_aggregate_candidates name)
where
  go : List AggregateFunction → Except SQLError (AggregateFunction × List Expression)
    | [] => .error ⟨.CatalogError,
        "cannot find overload of function with given types: " ++ name⟩
    | candidate :: rest =>
        if candidate.arg_types.length ≠ args.length then go rest
        else if match_aggregate_candidate candidate.arg_types args then
          .ok (candidate, args)
        else go rest

/-!
## Executors

The executors are pull-based: `next` produces one tuple or end-of-stream.
A child executor is modelled by the list of tuples it will emit, in order;
`next` functions thread the remaining stream explicitly.
-/

/-- The predicate closure built for `Plan::Filter` in
`src/sql/runtime/builder.rs`: evaluate the expression (an evaluation error
becomes `Boolean(false)`); a Boolean result is returned directly; any other
result is cast to Boolean, and a failed cast (including Null) is `false`. -/
def predicate_fn (predicate : Expression) (input : Tuple) : Bool :=
  let result := match predicate.eval input with
    | .ok d => d
    | .error _ => Datum.Boolean false
  match result with
  | .Boolean b => b
  | r =>
      match r.cast .Boolean with
      | .Boolean b => b
      | _ => false

/-- The tuple-extending closure built for `Plan::Map`: each scalar is
evaluated on the input tuple (an evaluation error becomes `Null`) and the
results are appended. -/
def map_fn (expressions : List Expression) (input : Tuple) : Tuple :=
  ⟨input.values ++ expressions.map fun e =>
    match e.eval input with
    | .ok d => d
    | .error _ => Datum.Null⟩

/-- `FilterExecutor::next` from `src/sql/runtime/executor.rs`: pull from the
child until the predicate returns true; also returns the child stream that
remains after the emitted tuple. -/
def filter_next (predicate : Tuple → Bool) : List Tuple → Option Tuple × List Tuple
  | [] => (none, [])
  | t :: rest => if predicate t then (some t, rest) else filter_next predicate rest

/-- `FilterExecutor::next` with the `Result` envelope of the source.  The
child is a pure stream here, and the predicate closure is total, so the only
error source of the original (`self.child.next(ctx)?`) cannot fire. -/
def filter_executor_next (predicate : Tuple → Bool) (child : List Tuple) :
    Except SQLError (Option Tuple × List Tuple) :=
  .ok (filter_next predicate child)

/-- `MapExecutor::next` with the `Result` envelope of the source. -/
def map_executor_next (f : Tuple → Tuple) (child : List Tuple) :
    Except SQLError (Option Tuple × List Tuple) :=
  match child with
  | [] => .ok (none, [])
  | t :: rest => .ok (some (f t), rest)

/-- `NestedLoopJoinExecutor::combine_tuple`: outer tuple extended with the
inner tuple's values. -/
def combine_tuple (left_tuple right_tuple : Tuple) : Tuple :=
  ⟨left_tuple.values ++ right_tuple.values⟩

/-- One pass through the body of the `loop` in
`NestedLoopJoinExecutor::next`.  State: the drained inner tuples (fixed),
the inner cursor, the cached outer tuple, and the outer child's remaining
stream. -/
inductive NLJStep where
  | yield : Tuple → ℕ → Option Tuple → List Tuple → NLJStep
  | stop : ℕ → Option Tuple → List Tuple → NLJStep
  | again : ℕ → Option Tuple → List Tuple → NLJStep

/-- The body of the `loop` in `NestedLoopJoinExecutor::next`: `stop` is a
`return Ok(None)`, `yield` a `return Ok(Some(..))`, `again` the `continue`
after exhausting the inner pass. -/
def nlj_loop_body (inner : List Tuple) (idx : ℕ) (outer : Option Tuple)
    (rest : List Tuple) : NLJStep :=
  if inner.isEmpty then .stop idx outer rest
  else
    match outer, rest with
    | none, [] => .stop idx none []
    | none, o :: r =>
        if idx = inner.length then .again 0 none r
        else
          match inner[idx]? with
          | some it => .yield (combine_tuple o it) (idx + 1) (some o) r
          | none => .stop idx (some o) r
    | some o, r =>
        if idx = inner.length then .again 0 none r
        else
          match inner[idx]? with
          | some it => .yield (combine_tuple o it) (idx + 1) (some o) r
          | none => .stop idx (some o) r

/-- `NestedLoopJoinExecutor::next`: the loop body runs again at most once
(a `continue` resets the inner cursor to 0 and drops the cached outer, after
which the next pass either pulls and yields or stops).  The nested `again`
arm is unreachable — see `nlj_loop_body_again`. -/
def nlj_next (inner : List Tuple) (idx : ℕ) (outer : Option Tuple)
    (rest : List Tuple) : Option Tuple × ℕ × Option Tuple × List Tuple :=
  match nlj_loop_body inner idx outer rest with
  | .yield t i o r => (some t, i, o, r)
  | .stop i o r => (none, i, o, r)
  | .again i o r =>
      match nlj_loop_body inner i o r with
      | .yield t i2 o2 r2 => (some t, i2, o2, r2)
      | .stop i2 o2 r2 => (none, i2, o2, r2)
      | .again i2 o2 r2 => (none, i2, o2, r2)

/-- Driving `NestedLoopJoinExecutor::next` to end-of-stream, with fuel
bounding the number of `next` calls; `none` means the fuel ran out before
end-of-stream. -/
def nlj_run (fuel : ℕ) (inner : List Tuple) (idx : ℕ) (outer : Option Tuple)
    (rest : List Tuple) : Option (List Tuple) :=
  match fuel with
  | 0 => none
  | fuel + 1 =>
      match nlj_next inner idx outer rest with
      | (none, _, _, _) => some []
      | (some t, i, o, r) => (nlj_run fuel inner i o r).map (t :: ·)

/-- The build state of `HashAggregateExecutor` (`HashAggregateState` minus
the result queue).  The source's `HashMap` is modelled as an association
list in insertion order; no claim depends on the map's iteration order. -/
structure HashAggBuild where
  hash_table : List (List Datum × List AggregateState)
  single_group : Option (List AggregateState)

/-- Association-list lookup standing in for `HashMap::get`. -/
def lookup_states (table : List (List Datum × List AggregateState))
    (key : List Datum) : Option (List AggregateState) :=
  (table.find? fun e => e.1 = key).map (·.2)

/-- Association-list update standing in for the mutation through
`HashMap::entry`: replace the first matching key or append a new entry. -/
def update_states (table : List (List Datum × List AggregateState))
    (key : List Datum) (states : List AggregateState) :
    List (List Datum × List AggregateState) :=
  match table with
  | [] => [(key, states)]
  | e :: rest =>
      if e.1 = key then (key, states) :: rest
      else e :: update_states rest key states

/-- The inner loop of `HashAggregateExecutor::next`: for each aggregate,
evaluate its argument expressions on the tuple and accumulate into the
matching state slot.  A state list shorter than the aggregate list is
unreachable (one slot is created per aggregate). -/
def accum_all : List (AggregateFunction × List Expression) → List AggregateState →
    Tuple → Except SQLError (List AggregateState)
  | [], _, _ => .ok []
  | (agg, args) :: aggs, s :: ss, t =>
      match Expression.evalArgs args t with
      | .error e => .error e
      | .ok arg_values =>
          match accum_all aggs ss t with
          | .error e => .error e
          | .ok rest => .ok (agg.accumulate arg_values s :: rest)
  | _ :: _, [], _ => .ok []

/-- Processing one input tuple in the drain loop of
`HashAggregateExecutor::next`: evaluate the group-by key, fetch or create
the state vector, and accumulate. -/
def hash_aggregate_step (group_by : List Expression)
    (aggregates : List (AggregateFunction × List Expression))
    (st : HashAggBuild) (tuple : Tuple) : Except SQLError HashAggBuild :=
  match Expression.evalArgs group_by tuple with
  | .error e => .error e
  | .ok hash_key =>
      if group_by.isEmpty then
        let states := st.single_group.getD (aggregates.map (·.1.default_state))
        match accum_all aggregates states tuple with
        | .error e => .error e
        | .ok states2 => .ok { st with single_group := some states2 }
      else
        let states := (lookup_states st.hash_table hash_key).getD
          (aggregates.map (·.1.default_state))
        match accum_all aggregates states tuple with
        | .error e => .error e
        | .ok states2 => .ok { st with hash_table := update_states st.hash_table hash_key states2 }

/-- Materializing the result queue after the drain: scalar aggregation emits
one row of finalized states (creating the default states if no input row
arrived); grouped aggregation emits key columns followed by finalized
states, one row per key. -/
def hash_aggregate_results (group_by : List Expression)
    (aggregates : List (AggregateFunction × List Expression))
    (st : HashAggBuild) : List Tuple :=
  if group_by.isEmpty then
    let states := st.single_group.getD (aggregates.map (·.1.default_state))
    [⟨states.map AggregateState.finalize⟩]
  else
    st.hash_table.map fun e => ⟨e.1 ++ e.2.map AggregateState.finalize⟩

/-- The complete emission of a `HashAggregateExecutor` across `next` calls:
the first call drains the input building the states, then the result queue is
popped one tuple per call, so the emitted tuples are exactly the materialized
queue.  An evaluation error during the drain propagates out of `next` with
nothing emitted. -/
def hash_aggregate_run (group_by : List Expression)
    (aggregates : List (AggregateFunction × List Expression))
    (input : List Tuple) : Except SQLError (List Tuple) :=
  go input ⟨[], none⟩
where
  go : List Tuple → HashAggBuild → Except SQLError (List Tuple)
    | [], st => .ok (hash_aggregate_results group_by aggregates st)
    | t :: rest, st =>
        match hash_aggregate_step group_by aggregates st t with
        | .error e => .error e
        | .ok st2 => go rest st2

/-!
## Storage, catalog and the DDL/DML executors
-/

/-- `HeapTable` from `src/storage/relation.rs`. -/
structure HeapTable where
  tuples : List Tuple
deriving DecidableEq, Repr

/-- `HeapTable::insert`: append. -/
def HeapTable.insert (t : HeapTable) (tuple : Tuple) : HeapTable :=
  ⟨t.tuples ++ [tuple]⟩

/-- `HeapTable::scan`: return the tuple under the caller-owned cursor and
advance it, or end-of-stream when the cursor has passed the end. -/
def HeapTable.scan (t : HeapTable) (cursor : ℕ) : Option Tuple × ℕ :=
  match t.tuples[cursor]? with
  | some tuple => (some tuple, cursor + 1)
  | none => (none, cursor)

/-- Driving `HeapTable::scan` (and hence `ScanExecutor::next`) to
end-of-stream from a cursor position. -/
def scan_all (t : HeapTable) (cursor : ℕ) : List Tuple :=
  match h : t.tuples[cursor]? with
  | some tuple => tuple :: scan_all t (cursor + 1)
  | none => []
termination_by t.tuples.length - cursor
decreasing_by
  have : cursor < t.tuples.length := by
    by_contra hc
    simp [List.getElem?_eq_none (Nat.le_of_not_lt hc)] at h
  omega

/-- `ColumnDefinition` from `src/catalog/defs.rs`. -/
structure ColumnDefinition where
  name : String
  data_type : Ty
  null : Bool
deriving DecidableEq, Repr

/-- `TableDefinition` from `src/catalog/defs.rs`. -/
structure TableDefinition where
  name : String
  columns : List ColumnDefinition
deriving DecidableEq, Repr

/-- `SchemaDefinition` from `src/catalog/defs.rs`. -/
structure SchemaDefinition where
  name : String
  tables : List TableDefinition
deriving DecidableEq, Repr

/-- `Catalog` from `src/catalog/mod.rs`. -/
structure Catalog where
  schemas : List SchemaDefinition
deriving DecidableEq, Repr

namespace Catalog

/-- `Catalog::exists_schema` (the source wraps the boolean in `Ok`). -/
def exists_schema (c : Catalog) (schema_name : String) : Bool :=
  c.schemas.any (·.name = schema_name)

/-- `Catalog::create_schema`. -/
def create_schema (c : Catalog) (schema_name : String) : Except SQLError Catalog :=
  if c.exists_schema schema_name then
    .error ⟨.CatalogError, "schema already exists"⟩
  else
    .ok ⟨c.schemas ++ [⟨schema_name, []⟩]⟩

/-- `Catalog::new`: pre-populated with the empty schema `"default"`
(the `unwrap()` cannot fail on the empty catalog). -/
def new : Catalog :=
  match create_schema ⟨[]⟩ "default" with
  | .ok c => c
  | .error _ => ⟨[]⟩

/-- `Catalog::find_table_by_name`: collect the matches across schemas with
the matching name; more than one is ambiguous. -/
def find_table_by_name (c : Catalog) (schema_name table_name : String) :
    Except SQLError (Option TableDefinition) :=
  let candidates := (c.schemas.filter (·.name = schema_name)).filterMap
    fun schema => schema.tables.find? (·.name = table_name)
  if candidates.length > 1 then
    .error ⟨.CatalogError,
      "ambiguous table name: " ++ schema_name ++ "." ++ table_name⟩
  else
    .ok candidates.head?

/-- `Catalog::create_table`. -/
def create_table (c : Catalog) (schema_name : String) (table_def : TableDefinition) :
    Except SQLError Catalog :=
  if ¬ c.exists_schema schema_name then
    .error ⟨.CatalogError, "schema does not exist"⟩
  else
    match c.find_table_by_name schema_name table_def.name with
    | .error e => .error e
    | .ok (some _) => .error ⟨.CatalogError, "table already exists"⟩
    | .ok none =>
        .ok ⟨modify_first c.schemas schema_name
          fun schema => { schema with tables := schema.tables ++ [table_def] }⟩
where
  /-- `iter_mut().find(..)`: mutate the first schema with the given name. -/
  modify_first : List SchemaDefinition → String → (SchemaDefinition → SchemaDefinition) →
      List SchemaDefinition
    | [], _, _ => []
    | s :: rest, n, f =>
        if s.name = n then f s :: rest else s :: modify_first rest n f

/-- `Catalog::drop_table`: error when the schema or the table is missing,
otherwise retain every other table of the (first) matching schema. -/
def drop_table (c : Catalog) (schema_name table_name : String) :
    Except SQLError Catalog :=
  if ¬ c.exists_schema schema_name then
    .error ⟨.CatalogError, "schema does not exist"⟩
  else
    match c.schemas.find? (·.name = schema_name) with
    | none => .error ⟨.CatalogError, "schema does not exist"⟩
    | some schema =>
        if ¬ schema.tables.any (·.name = table_name) then
          .error ⟨.CatalogError, "table does not exist"⟩
        else
          .ok ⟨go c.schemas schema_name table_name⟩
where
  go : List SchemaDefinition → String → String → List SchemaDefinition
    | [], _, _ => []
    | s :: rest, sn, tn =>
        if s.name = sn then
          { s with tables := s.tables.filter (¬ ·.name = tn) } :: rest
        else s :: go rest sn tn

end Catalog

/-- `StorageManager` from `src/storage/mod.rs`.  The `HashMap` keyed by
`(schema, table)` is modelled as an association list; only lookup behaviour
matters to the claims. -/
structure StorageManager where
  relations : List ((String × String) × HeapTable)
deriving DecidableEq, Repr

namespace StorageManager

/-- `StorageManager::get_relation`. -/
def get_relation (m : StorageManager) (schema_name table_name : String) :
    Option HeapTable :=
  (m.relations.find? fun e => e.1 = (schema_name, table_name)).map (·.2)

/-- `StorageManager::create_relation`: `HashMap::insert` of a fresh table
(replacing any previous entry for the key). -/
def create_relation (m : StorageManager) (schema_name table_name : String) :
    StorageManager :=
  ⟨((schema_name, table_name), ⟨[]⟩) ::
    m.relations.filter fun e => ¬ e.1 = (schema_name, table_name)⟩

/-- `StorageManager::drop_relation`: `HashMap::remove`. -/
def drop_relation (m : StorageManager) (schema_name table_name : String) :
    StorageManager :=
  ⟨m.relations.filter fun e => ¬ e.1 = (schema_name, table_name)⟩

/-- In-place mutation through `get_relation_mut`: replace the first entry for
the key. -/
def set_relation (m : StorageManager) (schema_name table_name : String)
    (table : HeapTable) : StorageManager :=
  ⟨go m.relations⟩
where
  go : List ((String × String) × HeapTable) → List ((String × String) × HeapTable)
    | [] => []
    | e :: rest =>
        if e.1 = (schema_name, table_name) then (e.1, table) :: rest
        else e :: go rest

end StorageManager

/-- `QueryContext` from `src/sql/session/context.rs`. -/
structure QueryContext where
  catalog : Catalog
  storage_mgr : StorageManager
  current_schema : String
deriving DecidableEq, Repr

/-- The `DDLJob::DropTables` arm of `DDLExecutor::open`: drop each named
table from the catalog and the storage manager in order; the first catalog
error aborts the loop, leaving every earlier drop in place. -/
def ddl_drop_tables_open : List (String × String) → QueryContext →
    Except SQLError Unit × QueryContext
  | [], ctx => (.ok (), ctx)
  | (schema_name, table_name) :: rest, ctx =>
      match ctx.catalog.drop_table schema_name table_name with
      | .error e => (.error e, ctx)
      | .ok catalog2 =>
          ddl_drop_tables_open rest
            { ctx with
              catalog := catalog2
              storage_mgr := ctx.storage_mgr.drop_relation schema_name table_name }

/-- The `DDLJob::CreateTable` arm of `DDLExecutor::open`. -/
def ddl_create_table_open (schema_name : String) (table_def : TableDefinition)
    (ctx : QueryContext) : Except SQLError QueryContext :=
  match ctx.catalog.create_table schema_name table_def with
  | .error e => .error e
  | .ok catalog2 =>
      .ok { ctx with
            catalog := catalog2
            storage_mgr := ctx.storage_mgr.create_relation schema_name table_def.name }

/-- `DMLExecutor::open` for `DMLJob::Insert`: look up the heap table and
append each bound tuple in order. -/
def dml_insert_open (ctx : QueryContext) (schema_name table_name : String)
    (insert_data : List Tuple) : Except SQLError QueryContext :=
  match ctx.storage_mgr.get_relation schema_name table_name with
  | none => .error ⟨.UnknownError, "cannot find storage"⟩
  | some table =>
      let table2 := insert_data.foldl HeapTable.insert table
      .ok { ctx with storage_mgr := ctx.storage_mgr.set_relation schema_name table_name table2 }

/-!
## Binder fragments

Only the binder paths the claims touch are embedded: aggregate-call binding
(`src/sql/planner/scalar.rs`) and the row materialization of
`Binder::bind_insert` (`src/sql/planner/binder.rs`).  AST expressions are
modelled opaquely — `bind_aggregate_function` never inspects the argument
expression itself on the paths of interest.
-/

/-- Stand-in for `sqlparser::ast::Expr` (only identity matters here). -/
inductive AstExpr where
  | ident : String → AstExpr
deriving DecidableEq, Repr

/-- `sqlparser::ast::FunctionArgExpr`. -/
inductive FunctionArgExpr where
  | Expr : AstExpr → FunctionArgExpr
  | QualifiedWildcard : String → FunctionArgExpr
  | Wildcard : FunctionArgExpr
deriving DecidableEq, Repr

/-- `sqlparser::ast::FunctionArg`. -/
inductive FunctionArg where
  | Unnamed : FunctionArgExpr → FunctionArg
  | Named : String → FunctionArgExpr → FunctionArg
deriving DecidableEq, Repr

/-- The fields of `sqlparser::ast::Function` that
`bind_aggregate_function` reads. -/
structure AstFunction where
  name : String
  args : List FunctionArg
  distinct : Bool
deriving DecidableEq, Repr

/-- Outcome of a binder call: `ok`, an `Err`, or an `unimplemented!()` panic
(which aborts the process rather than returning). -/
inductive BindOutcome (α : Type) where
  | ok : α → BindOutcome α
  | err : SQLError → BindOutcome α
  | unimpl : BindOutcome α
deriving DecidableEq, Repr

/-- `bind_aggregate_function` from `src/sql/planner/scalar.rs`.
`bind_scalar_arg` stands for the recursive `bind_scalar` call on an argument
expression (it is never reached for `count`).  Note the `count` branch: a
single `Wildcard` argument or an empty argument list yield `("count", [])`;
a single argument of any other shape — including a plain expression —
falls into the `_ => unimplemented!()` arm. -/
def bind_aggregate_function (bind_scalar_arg : AstExpr → BindOutcome ScalarExpr)
    (func : AstFunction) : BindOutcome (String × List ScalarExpr) :=
  if func.distinct then .unimpl
  else if str_to_lowercase func.name = "count" then
    if func.args.length > 1 then
      .err ⟨.CatalogError, "cannot find function count with given arguments"⟩
    else
      match func.args.head? with
      | some (.Unnamed .Wildcard) => .ok ("count", [])
      | some (.Unnamed _) => .unimpl
      | some (.Named _ _) => .unimpl
      | none => .ok ("count", [])
  else
    match bind_args func.args with
    | .ok args => .ok (func.name, args)
    | .err e => .err e
    | .unimpl => .unimpl
where
  bind_args : List FunctionArg → BindOutcome (List ScalarExpr)
    | [] => .ok []
    | .Unnamed (.Expr e) :: rest =>
        match bind_scalar_arg e with
        | .ok s =>
            match bind_args rest with
            | .ok ss => .ok (s :: ss)
            | .err er => .err er
            | .unimpl => .unimpl
        | .err er => .err er
        | .unimpl => .unimpl
    | .Unnamed _ :: _ => .unimpl
    | .Named _ _ :: _ => .unimpl

/-- The row materialization of `Binder::bind_insert`: each row must have the
table's arity; each bound value must be a literal, which is cast to the
column's declared type.  The input rows are the `ScalarExpr`s produced by
`bind_scalar` on the `VALUES` expressions. -/
def bind_insert_rows (columns : List ColumnDefinition)
    (rows : List (List ScalarExpr)) : Except SQLError (List Tuple) :=
  match rows with
  | [] => .ok []
  | row :: rest =>
      if row.length ≠ columns.length then
        .error ⟨.PlannerError, "invalid insert values"⟩
      else
        match bind_row row columns with
        | .error e => .error e
        | .ok tuple =>
            match bind_insert_rows columns rest with
            | .error e => .error e
            | .ok tuples => .ok (tuple :: tuples)
where
  bind_row : List ScalarExpr → List ColumnDefinition → Except SQLError Tuple
    | [], _ => .ok ⟨[]⟩
    | .Literal value :: srest, col :: crest =>
        match bind_row srest crest with
        | .error e => .error e
        | .ok t => .ok ⟨value.cast col.data_type :: t.values⟩
    | _ :: _, _ => .error ⟨.PlannerError, "invalid insert values"⟩

/-!
## Theorems
-/

/-- Claim C2, counterexample: the claim asserts `can_auto_cast_to` returns
true for `(String, Int)`; on the code it returns false — the `AUTO_CAST`
table has no entry with a String source other than `String → Any`. -/
theorem string_to_int_not_auto_castable :
    can_auto_cast_to .String .Int = false := by
  decide

/-- Claim C2 (corrected): during scalar overload resolution a String argument
is NOT accepted for a declared Int, Float or Boolean parameter:
`can_auto_cast_to` is false on `(String, Int)`, `(String, Float)` and
`(String, Boolean)`; the only target a String source can implicitly cast to
is `Any`; and a candidate with an Int parameter facing a String argument is
skipped, so `"x" + 1` finds no overload. -/
theorem auto_cast_rejects_string_sources :
    can_auto_cast_to .String .Int = false ∧
    can_auto_cast_to .String .Float = false ∧
    can_auto_cast_to .String .Boolean = false ∧
    (∀ t : Ty, can_auto_cast_to .String t = true ↔ t = .Any) ∧
    type_check_function "+" [.Literal (.String "x") .String, .Literal (.Int 1) .Int]
      = .error ⟨.CatalogError, "cannot find overload of function with given types: +"⟩ := by
  refine ⟨by decide, by decide, by decide, ?_, by rfl⟩
  intro t
  cases t <;> simp [can_auto_cast_to, AUTO_CAST]

/-- Claim C2, witness for the universally quantified component. -/
theorem auto_cast_string_any_witness :
    can_auto_cast_to .String .Any = true :=
  (auto_cast_rejects_string_sources.2.2.2.1 .Any).mpr rfl

/-- Claim C8: `Datum` equality (`beqD`, the `PartialEq` impl) is a total
equivalence relation compatible with the `Hash` impl: floats are equal iff
their bit patterns (modelled by `F64` identity) are equal, so NaN equals
itself and the two zeros are distinct; Null equals Null and hashes to the
fixed sentinel `0`; different variants are never equal; and equal datums
produce identical hasher feeds. -/
theorem datum_equality_hash_compatible :
    (∀ a : Datum, a.beqD a = true) ∧
    (∀ a b : Datum, a.beqD b = b.beqD a) ∧
    (∀ a b c : Datum, a.beqD b = true → b.beqD c = true → a.beqD c = true) ∧
    (∀ x y : F64, (Datum.Float x).beqD (.Float y) = true ↔ x = y) ∧
    (Datum.Float .nan).beqD (.Float .nan) = true ∧
    (Datum.Float (.num 0)).beqD (.Float .negZero) = false ∧
    Datum.Null.beqD .Null = true ∧
    Datum.hashFeed .Null = .i32 0 ∧
    (∀ a b : Datum, a.typ ≠ b.typ → a.beqD b = false) ∧
    (∀ a b : Datum, a.beqD b = true → a.hashFeed = b.hashFeed) := by
  refine ⟨?_, ?_, ?_, ?_, by decide, by decide, by decide, by decide, ?_, ?_⟩
  · intro a; cases a <;> simp [Datum.beqD]
  · intro a b
    cases a <;> cases b <;> simp [Datum.beqD] <;> exact eq_comm
  · intro a b c hab hbc
    cases a <;> cases b <;> simp [Datum.beqD] at hab <;>
      cases c <;> simp [Datum.beqD] at hbc ⊢ <;> exact hab.trans hbc
  · intro x y; simp [Datum.beqD]
  · intro a b h
    cases a <;> cases b <;> simp [Datum.typ] at h <;> simp [Datum.beqD]
  · intro a b h
    cases a <;> cases b <;> simp [Datum.beqD] at h <;> simp [Datum.hashFeed, h]

/-- Claim C8, witness: the hash-compatibility component applied at a
concrete equal pair. -/
theorem datum_equality_hash_compatible_witness :
    (Datum.Int 3).beqD (.Int 3) = true ∧
    (Datum.Int 3).hashFeed = (Datum.Int 3).hashFeed :=
  ⟨by decide, datum_equality_hash_compatible.2.2.2.2.2.2.2.2.2 (.Int 3) (.Int 3) (by decide)⟩

/-- Claim C10: expression-evaluation errors inside the Filter and Map
closures never propagate: an erroring predicate evaluates to `false` (the
tuple is dropped), an erroring map scalar contributes `Null` at its appended
position, and the `next` methods of both executors return `Ok`. -/
theorem filter_map_swallow_eval_errors :
    (∀ (p : Expression) (t : Tuple) (err : SQLError),
        p.eval t = .error err → predicate_fn p t = false) ∧
    (∀ (es : List Expression) (t : Tuple) (i : ℕ) (e : Expression) (err : SQLError),
        es[i]? = some e → e.eval t = .error err →
        (map_fn es t).values[t.values.length + i]? = some .Null) ∧
    (∀ (p : Tuple → Bool) (child : List Tuple),
        ∃ v, filter_executor_next p child = .ok v) ∧
    (∀ (f : Tuple → Tuple) (child : List Tuple),
        ∃ v, map_executor_next f child = .ok v) := by
  refine ⟨?_, ?_, ?_, ?_⟩
  · intro p t err h
    simp [predicate_fn, h]
  · intro es t i e err hi herr
    have hlen : t.values.length ≤ t.values.length + i := Nat.le_add_right _ _
    have hmap : (es.map fun ex =>
        match ex.eval t with
        | .ok d => d
        | .error _ => Datum.Null)[i]? = some Datum.Null := by
      rw [List.getElem?_map, hi]
      simp [herr]
    simp [map_fn, List.getElem?_append_right hlen, hmap]
  · intro p child
    exact ⟨_, rfl⟩
  · intro f child
    cases child <;> exact ⟨_, rfl⟩

/-- Claim C10, witness: an out-of-range column reference errors, and the
filter predicate closure returns false on it. -/
theorem filter_map_swallow_eval_errors_witness :
    Expression.eval (.Column 5 .Int) ⟨[]⟩
      = .error ⟨.RuntimeError, "cannot find column at index: 5"⟩ ∧
    predicate_fn (.Column 5 .Int) ⟨[]⟩ = false :=
  ⟨by rfl, filter_map_swallow_eval_errors.1 _ _ _ (by rfl)⟩

/-- Every tuple a `filter_next` call emits satisfied the predicate closure. -/
theorem filter_next_emits {p : Tuple → Bool} :
    ∀ {ts : List Tuple} {t : Tuple} {rest : List Tuple},
      filter_next p ts = (some t, rest) → p t = true := by
  intro ts
  induction ts with
  | nil => intro t rest h; simp [filter_next] at h
  | cons x xs ih =>
      intro t rest h
      by_cases hp : p x
      · simp [filter_next, hp] at h
        rw [← h.1]; exact hp
      · simp [filter_next, hp] at h
        exact ih h

/-- If the filter predicate closure returns true, the expression evaluated
successfully to `Boolean(true)` or to a value casting to `Boolean(true)`. -/
theorem predicate_fn_true_char {pred : Expression} {t : Tuple}
    (h : predicate_fn pred t = true) :
    ∃ r, pred.eval t = .ok r ∧ (r = .Boolean true ∨ r.cast .Boolean = .Boolean true) := by
  unfold predicate_fn at h
  cases heval : pred.eval t with
  | error e => rw [heval] at h; simp at h
  | ok r =>
      rw [heval] at h
      refine ⟨r, rfl, ?_⟩
      cases r with
      | Boolean b => left; simp at h; rw [h]
      | Int v => right; simp at h; split at h <;> simp_all
      | Float v => right; simp at h; split at h <;> simp_all
      | String v => right; simp at h; split at h <;> simp_all
      | Null => right; simp at h; split at h <;> simp_all

/-- Claim C3: every tuple emitted by a Filter executor satisfies its
predicate — evaluating the predicate expression on the emitted tuple
succeeds and yields `Boolean(true)`, or a non-Boolean value whose cast to
Boolean is `Boolean(true)`.  Tuples evaluating to false, Null, or an
uncastable value are never emitted (their evaluation cannot satisfy this
conclusion). -/
theorem filter_emits_only_true (predicate : Expression) (child : List Tuple)
    (t : Tuple) (rest : List Tuple)
    (h : filter_next (predicate_fn predicate) child = (some t, rest)) :
    ∃ r, predicate.eval t = .ok r ∧
      (r = .Boolean true ∨ r.cast .Boolean = .Boolean true) :=
  predicate_fn_true_char (filter_next_emits h)

/-- Claim C3, witness: a trivially-true predicate emits the input tuple. -/
theorem filter_emits_only_true_witness :
    filter_next (predicate_fn (.Literal (.Boolean true) .Boolean)) [⟨[]⟩]
      = (some ⟨[]⟩, []) ∧
    ∃ r, Expression.eval (.Literal (.Boolean true) .Boolean) ⟨[]⟩ = .ok r ∧
      (r = .Boolean true ∨ r.cast .Boolean = .Boolean true) :=
  ⟨by rfl, filter_emits_only_true (.Literal (.Boolean true) .Boolean) [⟨[]⟩] ⟨[]⟩ []
    (by rfl)⟩

/-- For empty group-by, draining the input through `hash_aggregate_run.go`
yields a single result row whenever it succeeds. -/
theorem hash_agg_go_scalar_len (aggs : List (AggregateFunction × List Expression)) :
    ∀ (input : List Tuple) (st : HashAggBuild) (out : List Tuple),
      hash_aggregate_run.go [] aggs input st = .ok out → out.length = 1 := by
  intro input
  induction input with
  | nil =>
      intro st out h
      simp [hash_aggregate_run.go, hash_aggregate_results] at h
      rw [← h]
      rfl
  | cons t rest ih =>
      intro st out h
      rw [hash_aggregate_run.go] at h
      cases hs : hash_aggregate_step [] aggs st t with
      | error e => rw [hs] at h; simp at h
      | ok st2 => rw [hs] at h; exact ih st2 out h

/-- Claim C4: a HashAggregate executor with empty group-by emits exactly one
result tuple whenever the drain succeeds (which it always does on empty
input), and over the empty input that tuple is the finalization of each
aggregate's default state — `Int 0` for `count` and `Null` for `sum`, `avg`,
`min` and `max`. -/
theorem scalar_aggregation_single_row :
    (∀ (aggs : List (AggregateFunction × List Expression)) (input out : List Tuple),
        hash_aggregate_run [] aggs input = .ok out → out.length = 1) ∧
    (∀ aggs : List (AggregateFunction × List Expression),
        hash_aggregate_run [] aggs []
          = .ok [⟨aggs.map fun a => a.1.default_state.finalize⟩]) ∧
    aggCountStar.default_state.finalize = .Int 0 ∧
    aggCountAny.default_state.finalize = .Int 0 ∧
    aggSumInt.default_state.finalize = .Null ∧
    aggSumFloat.default_state.finalize = .Null ∧
    aggAvgInt.default_state.finalize = .Null ∧
    aggAvgFloat.default_state.finalize = .Null ∧
    (∀ name op, (aggExtremumInt name op).default_state.finalize = .Null) ∧
    (∀ name op, (aggExtremumFloat name op).default_state.finalize = .Null) ∧
    (∀ name op, (aggExtremumString name op).default_state.finalize = .Null) := by
  refine ⟨?_, ?_, by rfl, by rfl, by rfl, by rfl, by rfl, by rfl,
    fun _ _ => rfl, fun _ _ => rfl, fun _ _ => rfl⟩
  · intro aggs input out h
    exact hash_agg_go_scalar_len aggs input ⟨[], none⟩ out h
  · intro aggs
    simp [hash_aggregate_run, hash_aggregate_run.go, hash_aggregate_results,
      List.map_map, Function.comp]

/-- Claim C4, witness: a single `count()` aggregate over a one-row input
emits exactly one tuple. -/
theorem scalar_aggregation_single_row_witness :
    hash_aggregate_run [] [(aggCountStar, [])] [⟨[.Int 5]⟩] = .ok [⟨[.Int 1]⟩] ∧
    ([(⟨[Datum.Int 1]⟩ : Tuple)] : List Tuple).length = 1 :=
  ⟨by rfl, scalar_aggregation_single_row.1 [(aggCountStar, [])] [⟨[.Int 5]⟩]
    [⟨[Datum.Int 1]⟩] (by rfl)⟩

/-- `nlj_next` in mid-pass: with a cached outer tuple and the inner cursor in
range, the executor yields the combination and advances the cursor. -/
theorem nlj_next_yield (b0 : Tuple) (Bt : List Tuple) (o : Tuple)
    (rest : List Tuple) (k : ℕ) (hk : k < (b0 :: Bt).length) :
    nlj_next (b0 :: Bt) k (some o) rest
      = (some (combine_tuple o (b0 :: Bt)[k]), k + 1, some o, rest) := by
  have hkne : k ≠ Bt.length + 1 := by
    have h := Nat.ne_of_lt hk
    simpa using h
  simp [nlj_next, nlj_loop_body, hkne, List.getElem?_eq_getElem hk]

/-- `nlj_next` at the end of a pass with no outer tuples left: end-of-stream. -/
theorem nlj_next_exhausted (b0 : Tuple) (Bt : List Tuple) (o : Tuple) :
    nlj_next (b0 :: Bt) (b0 :: Bt).length (some o) [] = (none, 0, none, []) := by
  simp [nlj_next, nlj_loop_body]

/-- `nlj_next` at the end of a pass with another outer tuple available: the
`continue` resets the cursor, the next loop iteration pulls the outer tuple
and yields its first combination. -/
theorem nlj_next_wrap (b0 : Tuple) (Bt : List Tuple) (o a : Tuple)
    (r : List Tuple) :
    nlj_next (b0 :: Bt) (b0 :: Bt).length (some o) (a :: r)
      = (some (combine_tuple a b0), 1, some a, r) := by
  simp [nlj_next, nlj_loop_body]

/-- `nlj_next` on the initial state with an outer tuple to pull. -/
theorem nlj_next_first (b0 : Tuple) (Bt : List Tuple) (a : Tuple) (r : List Tuple) :
    nlj_next (b0 :: Bt) 0 none (a :: r)
      = (some (combine_tuple a b0), 1, some a, r) := by
  simp [nlj_next, nlj_loop_body]

/-- Unfolding one `next` call of the join driver. -/
theorem nlj_run_succ (f : ℕ) (B : List Tuple) (k : ℕ) (o : Option Tuple)
    (rest : List Tuple) :
    nlj_run (f + 1) B k o rest
      = match nlj_next B k o rest with
        | (none, _, _, _) => some []
        | (some t, i, o2, r) => (nlj_run f B i o2 r).map (t :: ·) := rfl

/-- Driving the join from mid-pass state to end-of-stream: the current outer
tuple finishes its inner pass, then every remaining outer tuple contributes a
full pass, in order. -/
theorem nlj_pass (b0 : Tuple) (Bt : List Tuple) :
    ∀ (fuel k : ℕ) (o : Tuple) (rest : List Tuple), k ≤ (b0 :: Bt).length →
      (b0 :: Bt).length - k + rest.length * (b0 :: Bt).length + 1 ≤ fuel →
      nlj_run fuel (b0 :: Bt) k (some o) rest
        = some (((b0 :: Bt).drop k).map (combine_tuple o)
            ++ rest.flatMap fun a => (b0 :: Bt).map (combine_tuple a)) := by
  intro fuel
  induction fuel with
  | zero => intro k o rest hk hb; omega
  | succ f IH =>
      intro k o rest hk hb
      rcases Nat.lt_or_ge k (b0 :: Bt).length with hkB | hkB
      · rw [nlj_run_succ, nlj_next_yield b0 Bt o rest k hkB]
        simp only
        rw [IH (k + 1) o rest (by omega) (by omega)]
        conv_rhs => rw [List.drop_eq_getElem_cons hkB]
        simp
      · have hk2 : k = (b0 :: Bt).length := le_antisymm hk hkB
        subst hk2
        cases rest with
        | nil =>
            rw [nlj_run_succ, nlj_next_exhausted b0 Bt o]
            simp [List.drop_length]
        | cons a r =>
            have h0 : 0 < (b0 :: Bt).length := by simp
            simp only [List.length_cons] at hb
            rw [Nat.succ_mul] at hb
            have hbound : (b0 :: Bt).length - 1 + r.length * (b0 :: Bt).length + 1 ≤ f := by
              simp only [List.length_cons] at *
              omega
            rw [nlj_run_succ, nlj_next_wrap b0 Bt o a r]
            simp only
            rw [IH 1 a r (by omega) hbound, List.drop_length]
            simp

/-- Claim C5: a nested-loop join executor opened with inner stream B (the
right side, drained at `open`) and outer stream A (the left side) emits
exactly `|A| × |B|` tuples; each emitted tuple is an A-row's values followed
by a B-row's values, in outer-major, inner-minor order — the flattening of
`A` with a full pass over `B` per outer row. -/
theorem nested_loop_join_cross_product (A B : List Tuple) :
    nlj_run (A.length * B.length + 1) B 0 none A
      = some (A.flatMap fun a => B.map fun b => combine_tuple a b) ∧
    (A.flatMap fun a => B.map fun b => combine_tuple a b).length
      = A.length * B.length ∧
    (∀ a b : Tuple, (combine_tuple a b).values = a.values ++ b.values) := by
  refine ⟨?_, ?_, fun a b => rfl⟩
  · rcases B with _ | ⟨b0, Bt⟩
    · rw [nlj_run_succ]
      simp [nlj_next, nlj_loop_body]
    · cases A with
      | nil =>
          rw [nlj_run_succ]
          simp [nlj_next, nlj_loop_body]
      | cons a At =>
          have hbound : (b0 :: Bt).length - 1 + At.length * (b0 :: Bt).length + 1
              ≤ (a :: At).length * (b0 :: Bt).length := by
            simp only [List.length_cons]
            rw [Nat.succ_mul]
            omega
          rw [nlj_run_succ, nlj_next_first b0 Bt a At]
          simp only
          rw [nlj_pass b0 Bt _ 1 a At (by simp) hbound, List.flatMap_cons]
          simp
  · induction A with
    | nil => simp
    | cons a At ih => simp [ih, Nat.succ_mul, Nat.add_comm]

/-- Claim C1 (code bug): `AggregateState::finalize` for `Avg` returns the
stored running sum without dividing by the count.  Accumulating the Int
values 1, 2, 3 leaves the state `Avg (Float 6.0) 3`, whose finalization is
`Float 6.0`, not the claimed `Float 2.0`; consequently
`SELECT count(*), sum(a), avg(a), min(a), max(a) FROM t` over those values
yields the row `(3, 6, 6.0, 1, 3)` instead of the claimed `(3, 6, 2.0, 1, 3)`.
The count-0 half of the claim does hold: finalizing the fresh state yields
`Null`. -/
theorem avg_finalize_returns_sum :
    (AggregateState.Avg (.Float (.num 6)) 3).finalize = .Float (.num 6) ∧
    (AggregateState.Avg .Null 0).finalize = .Null ∧
    hash_aggregate_run []
      [(aggCountStar, []), (aggSumInt, [.Column 0 .Int]), (aggAvgInt, [.Column 0 .Int]),
       (aggExtremumInt "min" (· < ·), [.Column 0 .Int]),
       (aggExtremumInt "max" (· > ·), [.Column 0 .Int])]
      [⟨[.Int 1]⟩, ⟨[.Int 2]⟩, ⟨[.Int 3]⟩]
      = .ok [⟨[.Int 3, .Int 6, .Float (.num 6), .Int 1, .Int 3]⟩] ∧
    Datum.Float (.num 6) ≠ Datum.Float (.num 2) ∧
    (6 : ℚ) / 3 = 2 := by
  refine ⟨rfl, rfl, ?_, ?_, by norm_num⟩
  · simp only [hash_aggregate_run, hash_aggregate_run.go, hash_aggregate_step,
      hash_aggregate_results, accum_all, Expression.evalArgs, Expression.eval,
      Tuple.get, aggCountStar, aggSumInt, aggAvgInt, aggExtremumInt, skip_null,
      Datum.isNull, F64.add, AggregateState.finalize, List.getElem?_cons_zero,
      List.any_cons, List.any_nil, List.isEmpty_nil, List.map_cons, List.map_nil,
      Bool.or_false, reduceCtorEq, if_false, if_true]
    norm_num
    exact ⟨rfl, rfl, rfl, rfl, rfl⟩
  · intro h
    have h6 : (6 : ℚ) = 2 := by
      injection h with h2
      injection h2
    norm_num at h6

/-- Folding the `count(Any)` accumulator over a datum list counts the
non-null entries on top of the starting count. -/
theorem count_any_fold (l : List Datum) : ∀ n : ℕ,
    l.foldl (fun st d => aggCountAny.accumulate [d] st) (AggregateState.Count n)
      = .Count (n + l.countP fun d => !d.isNull) := by
  induction l with
  | nil => intro n; simp
  | cons d rest ih =>
      intro n
      have hstep : aggCountAny.accumulate [d] (AggregateState.Count n)
          = if d.isNull then AggregateState.Count n
            else AggregateState.Count (n + 1) := by
        by_cases hd : d.isNull <;> simp [aggCountAny, skip_null, hd]
      rw [List.foldl_cons, hstep]
      by_cases hd : d.isNull
      · rw [if_pos hd, ih n, List.countP_cons]
        simp [hd]
      · rw [if_neg hd, ih (n + 1), List.countP_cons]
        simp only [AggregateState.Count.injEq]
        have hb : (!d.isNull) = true := by simp [hd]
        rw [hb]
        simp only [if_true]
        omega

/-- Claim C6 (code bug): binding `count(e)` with a single non-wildcard
argument reaches the `unimplemented!()` panic in `bind_aggregate_function`
— binding is not defined there, and the registered `count(Any)` overload is
never resolved through it.  The overload itself exists (aggregate type
checking resolves `count` with one argument to `count(Any)`), and its
accumulator does return the number of non-Null argument values, which is the
behaviour the claim describes. -/
theorem count_argument_binding_unimplemented :
    (∀ bs : AstExpr → BindOutcome ScalarExpr,
        bind_aggregate_function bs ⟨"count", [.Unnamed (.Expr (.ident "a"))], false⟩
          = .unimpl) ∧
    type_check_aggregate_function "count" [.Column 0 .Int]
      = .ok (aggCountAny, [.Column 0 .Int]) ∧
    (∀ l : List Datum,
        (l.foldl (fun st d => aggCountAny.accumulate [d] st)
            (AggregateState.Count 0)).finalize
          = .Int (l.countP fun d => !d.isNull)) := by
  refine ⟨fun bs => rfl, rfl, fun l => ?_⟩
  rw [count_any_fold l 0]
  simp [AggregateState.finalize]

/-- Claim C7: the insert-then-scan round trip.  Starting from a fresh
session context, `CREATE TABLE t(a int, b varchar)` registers the table in
the catalog and an empty heap table in storage; binding
`INSERT INTO t VALUES (1,'x'),(2,'y')` materializes exactly the two tuples
(the literal-to-column casts are identities here); the DML executor appends
them in order; and a full scan — which is what `SELECT * FROM t` projects
with the identity projection `[0, 1]` — returns exactly those two tuples in
insertion order. -/
theorem insert_then_scan_roundtrip :
    ddl_create_table_open "default"
        ⟨"t", [⟨"a", .Int, false⟩, ⟨"b", .String, false⟩]⟩
        ⟨Catalog.new, ⟨[]⟩, "default"⟩
      = .ok ⟨⟨[⟨"default", [⟨"t", [⟨"a", .Int, false⟩, ⟨"b", .String, false⟩]⟩]⟩]⟩,
             ⟨[(("default", "t"), ⟨[]⟩)]⟩, "default"⟩ ∧
    bind_insert_rows [⟨"a", .Int, false⟩, ⟨"b", .String, false⟩]
        [[.Literal (.Int 1), .Literal (.String "x")],
         [.Literal (.Int 2), .Literal (.String "y")]]
      = .ok [⟨[.Int 1, .String "x"]⟩, ⟨[.Int 2, .String "y"]⟩] ∧
    dml_insert_open
        ⟨⟨[⟨"default", [⟨"t", [⟨"a", .Int, false⟩, ⟨"b", .String, false⟩]⟩]⟩]⟩,
         ⟨[(("default", "t"), ⟨[]⟩)]⟩, "default"⟩
        "default" "t" [⟨[.Int 1, .String "x"]⟩, ⟨[.Int 2, .String "y"]⟩]
      = .ok ⟨⟨[⟨"default", [⟨"t", [⟨"a", .Int, false⟩, ⟨"b", .String, false⟩]⟩]⟩]⟩,
             ⟨[(("default", "t"),
                ⟨[⟨[.Int 1, .String "x"]⟩, ⟨[.Int 2, .String "y"]⟩]⟩)]⟩, "default"⟩ ∧
    scan_all ⟨[⟨[.Int 1, .String "x"]⟩, ⟨[.Int 2, .String "y"]⟩]⟩ 0
      = [⟨[.Int 1, .String "x"]⟩, ⟨[.Int 2, .String "y"]⟩] ∧
    ([⟨[.Int 1, .String "x"]⟩, ⟨[.Int 2, .String "y"]⟩] : List Tuple).map
        (Tuple.project · [0, 1])
      = [⟨[.Int 1, .String "x"]⟩, ⟨[.Int 2, .String "y"]⟩] := by
  refine ⟨by rfl, by rfl, by rfl, ?_, by rfl⟩
  rw [scan_all, scan_all, scan_all]
  rfl

/-- Claim C9: `DROP TABLE a, b` is not atomic.  In general, once a name in
the list drops successfully, execution of the remaining names proceeds from
the mutated context — there is no rollback on a later failure.  Concretely,
with table `a` existing and `b` missing, `DropTables [a, b]` returns the
CatalogError for `b` while `a` is already gone from both the catalog and the
storage manager. -/
theorem drop_tables_no_rollback :
    (∀ (sn tn : String) (rest : List (String × String)) (ctx : QueryContext)
        (cat2 : Catalog),
        ctx.catalog.drop_table sn tn = .ok cat2 →
        ddl_drop_tables_open ((sn, tn) :: rest) ctx
          = ddl_drop_tables_open rest
              ⟨cat2, ctx.storage_mgr.drop_relation sn tn, ctx.current_schema⟩) ∧
    (ddl_drop_tables_open [("default", "a"), ("default", "b")]
        ⟨⟨[⟨"default", [⟨"a", [⟨"x", .Int, false⟩]⟩]⟩]⟩,
         ⟨[(("default", "a"), ⟨[]⟩)]⟩, "default"⟩).1
      = .error ⟨.CatalogError, "table does not exist"⟩ ∧
    (ddl_drop_tables_open [("default", "a"), ("default", "b")]
        ⟨⟨[⟨"default", [⟨"a", [⟨"x", .Int, false⟩]⟩]⟩]⟩,
         ⟨[(("default", "a"), ⟨[]⟩)]⟩, "default"⟩).2.catalog.find_table_by_name
        "default" "a"
      = .ok none ∧
    (ddl_drop_tables_open [("default", "a"), ("default", "b")]
        ⟨⟨[⟨"default", [⟨"a", [⟨"x", .Int, false⟩]⟩]⟩]⟩,
         ⟨[(("default", "a"), ⟨[]⟩)]⟩, "default"⟩).2.storage_mgr.get_relation
        "default" "a"
      = none := by
  refine ⟨?_, by rfl, by rfl, by rfl⟩
  intro sn tn rest ctx cat2 h
  simp [ddl_drop_tables_open, h]

/-- Claim C9, witness for the general no-rollback component, applied at the
concrete one-table context. -/
theorem drop_tables_no_rollback_witness :
    ddl_drop_tables_open [("default", "a")]
        ⟨⟨[⟨"default", [⟨"a", [⟨"x", .Int, false⟩]⟩]⟩]⟩,
         ⟨[(("default", "a"), ⟨[]⟩)]⟩, "default"⟩
      = ddl_drop_tables_open []
          ⟨⟨[⟨"default", []⟩]⟩, ⟨[]⟩, "default"⟩ := by
  have h := drop_tables_no_rollback.1 "default" "a" []
    ⟨⟨[⟨"default", [⟨"a", [⟨"x", .Int, false⟩]⟩]⟩]⟩,
     ⟨[(("default", "a"), ⟨[]⟩)]⟩, "default"⟩
    ⟨[⟨"default", []⟩]⟩ (by rfl)
  exact h

end LeiSQL
